import Mathlib

/-!
Verification of the kafka-rust broker against its natural-language
specification.

The development shallowly embeds the relevant Rust source files:

* `src/protocol.rs`    — primitive wire codecs (integers, strings, UUIDs,
  compact arrays, tag buffers);
* `src/api_versions.rs` — the ApiVersions (key 18) response;
* `src/api/cluster_metadata.rs` — the parsed cluster-metadata record values
  and `raw_batch_for_topic`;
* `src/api/fetch.rs`   — the Fetch (key 1) handler;
* `src/api/describe_topic_partitions.rs` — the DescribeTopicPartitions
  (key 75) handler.

Modelling conventions: a byte buffer is a `List Nat` (each element a byte
value `< 256`); Rust strings are represented by their UTF-8 byte sequences
(`List Nat`); machine integers are `Int`/`Nat` with explicit reductions
where overflow matters.  A read that panics in Rust (`bytes::Buf` underflow,
`expect`, failed UTF-8 `unwrap`) is modelled by `Option.none`; fallible
filesystem interaction is threaded through an explicit map from paths to
file contents, with `Except` for propagated `anyhow` errors.
-/

/-- Big-endian two-byte encoding of an `i16` value (as written by
`BufMut::put_i16`): the value is reduced modulo `2^16` and split into two
bytes. -/
def i16be (v : Int) : List Nat :=
  let n := (v % 65536).toNat
  [n / 256, n % 256]

/-- Big-endian four-byte encoding of an `i32`/`u32` value (as written by
`BufMut::put_i32` / `put_u32`). -/
def i32be (v : Int) : List Nat :=
  let n := (v % 4294967296).toNat
  [n / 16777216 % 256, n / 65536 % 256, n / 256 % 256, n % 256]

/-- Reading one byte (`Buf::get_u8`).  `bytes::Buf` panics when the buffer
is exhausted; the panic is modelled by `none`. -/
def readU8 : List Nat → Option (Nat × List Nat)
  | [] => none
  | b :: rest => some (b, rest)

/-- Two's-complement interpretation of a 16-bit big-endian pair. -/
def decodeI16 (n : Nat) : Int :=
  if n < 32768 then (n : Int) else (n : Int) - 65536

/-- Reading a big-endian `i16` (`Buf::get_i16`); underflow panics (`none`). -/
def readI16 : List Nat → Option (Int × List Nat)
  | b0 :: b1 :: rest => some (decodeI16 (b0 * 256 + b1), rest)
  | _ => none

/-- Reading a big-endian `i32` (`Buf::get_i32`); underflow panics (`none`). -/
def readI32 : List Nat → Option (Int × List Nat)
  | b0 :: b1 :: b2 :: b3 :: rest =>
    let n := ((b0 * 256 + b1) * 256 + b2) * 256 + b3
    some (if n < 2147483648 then (n : Int) else (n : Int) - 4294967296, rest)
  | _ => none

/-- Reading 16 raw bytes (`Bytes::split_to(16)` inside `Uuid::deserialize`);
a shorter buffer panics (`none`). -/
def readUuidBytes (src : List Nat) : Option (List Nat × List Nat) :=
  if 16 ≤ src.length then some (src.take 16, src.drop 16) else none

/-- Unsigned LEB128 encoding, as produced by the `integer-encoding` crate's
`encode_var` for unsigned integers. -/
def uvarint (n : Nat) : List Nat :=
  if h : n < 128 then [n]
  else (n % 128 + 128) :: uvarint (n / 128)
decreasing_by
  exact Nat.div_lt_self (by omega) (by omega)

/-- Unsigned LEB128 decoding (`decode_var` for unsigned integers); running
out of bytes makes the surrounding `expect` panic (`none`). -/
def decodeUvar : List Nat → Option (Nat × List Nat)
  | [] => none
  | b :: rest =>
    if b < 128 then some (b, rest)
    else
      match decodeUvar rest with
      | some (v, r) => some (b - 128 + 128 * v, r)
      | none => none

/-- Zigzag decoding applied on top of LEB128, as the `integer-encoding`
crate does for signed integers (`i64::decode_var`). -/
def decodeZigzag (src : List Nat) : Option (Int × List Nat) :=
  match decodeUvar src with
  | some (n, r) =>
    some (if n % 2 = 0 then ((n / 2 : Nat) : Int) else -(((n + 1) / 2 : Nat) : Int), r)
  | none => none

/-- Whether a byte is a UTF-8 continuation byte. -/
def utf8Cont (b : Nat) : Prop := 0x80 ≤ b ∧ b ≤ 0xBF

instance (b : Nat) : Decidable (utf8Cont b) := by unfold utf8Cont; infer_instance

/-- Exact UTF-8 validity of a byte sequence, mirroring what
`String::from_utf8` accepts (no overlong forms, no surrogates, maximum
code point `0x10FFFF`). -/
def isValidUtf8 : List Nat → Bool
  | [] => true
  | b :: rest =>
    if b ≤ 0x7F then isValidUtf8 rest
    else
      match rest with
      | [] => false
      | b2 :: r2 =>
        if 0xC2 ≤ b ∧ b ≤ 0xDF then
          if utf8Cont b2 then isValidUtf8 r2 else false
        else
          match r2 with
          | [] => false
          | b3 :: r3 =>
            if b = 0xE0 then
              if (0xA0 ≤ b2 ∧ b2 ≤ 0xBF) ∧ utf8Cont b3 then isValidUtf8 r3 else false
            else if (0xE1 ≤ b ∧ b ≤ 0xEC) ∨ b = 0xEE ∨ b = 0xEF then
              if utf8Cont b2 ∧ utf8Cont b3 then isValidUtf8 r3 else false
            else if b = 0xED then
              if (0x80 ≤ b2 ∧ b2 ≤ 0x9F) ∧ utf8Cont b3 then isValidUtf8 r3 else false
            else
              match r3 with
              | [] => false
              | b4 :: r4 =>
                if b = 0xF0 then
                  if (0x90 ≤ b2 ∧ b2 ≤ 0xBF) ∧ utf8Cont b3 ∧ utf8Cont b4 then
                    isValidUtf8 r4
                  else false
                else if 0xF1 ≤ b ∧ b ≤ 0xF3 then
                  if utf8Cont b2 ∧ utf8Cont b3 ∧ utf8Cont b4 then isValidUtf8 r4 else false
                else if b = 0xF4 then
                  if (0x80 ≤ b2 ∧ b2 ≤ 0x8F) ∧ utf8Cont b3 ∧ utf8Cont b4 then
                    isValidUtf8 r4
                  else false
                else false

/-- The `len as usize` cast applied to an `i16` length in
`NullableString::deserialize`: sign extension into a 64-bit unsigned. -/
def usizeOfI16 (v : Int) : Nat :=
  if 0 ≤ v then v.toNat else (18446744073709551616 + v).toNat

namespace NullableString

/-- Shallow embedding of `NullableString::deserialize` (protocol.rs):
reads an `i16` length; `-1` and `0` both yield `None`; a declared length
larger than the remaining buffer logs and yields `None` without advancing;
otherwise the bytes are split off and must be valid UTF-8 (`unwrap`
panics — `none` — otherwise). -/
def deserialize (src : List Nat) : Option (Option (List Nat) × List Nat) :=
  match readI16 src with
  | none => none
  | some (len, rest) =>
    let string_len := if len = -1 then 0 else usizeOfI16 len
    if string_len = 0 then some (none, rest)
    else if rest.length < string_len then some (none, rest)
    else if isValidUtf8 (rest.take string_len) then
      some (some (rest.take string_len), rest.drop string_len)
    else none

end NullableString

namespace CompactNullableString

/-- Shallow embedding of `CompactNullableString::serialize` (protocol.rs):
`Some s` is written as `uvarint (|s| + 1)` followed by the bytes, `None`
as `uvarint 0`. -/
def serialize (s : Option (List Nat)) : List Nat :=
  match s with
  | some bytes => uvarint (bytes.length + 1) ++ bytes
  | none => uvarint 0

/-- Shallow embedding of `CompactNullableString::deserialize`
(protocol.rs): reads a varint length; `0` yields `None`; a declared length
larger than the remaining buffer logs and yields `None`; otherwise the
bytes are split off and must be valid UTF-8. -/
def deserialize (src : List Nat) : Option (Option (List Nat) × List Nat) :=
  match decodeUvar src with
  | none => none
  | some (len, rest) =>
    if len = 0 then some (none, rest)
    else
      let string_len := len - 1
      if rest.length < string_len then some (none, rest)
      else if isValidUtf8 (rest.take string_len) then
        some (some (rest.take string_len), rest.drop string_len)
      else none

end CompactNullableString

namespace TagBuffer

/-- Shallow embedding of `TagBuffer::serialize` (protocol.rs): the single
byte `0`. -/
def serialize : List Nat := [0]

/-- Shallow embedding of `TagBuffer::deserialize` (protocol.rs): a bare
`src.get_u8()` — one byte is consumed and returned without any check. -/
def deserialize (src : List Nat) : Option (Nat × List Nat) :=
  readU8 src

end TagBuffer

/-- The tagged-fields check at the end of `RecordValue::from_bytes`
(cluster_metadata.rs): decode a signed varint and `assert_eq!` it to `0`
(= panic, modelled `none`, on anything else). -/
def readRecordTagCount (src : List Nat) : Option (List Nat) :=
  match decodeZigzag src with
  | some (n, rest) => if n = 0 then some rest else none
  | none => none

/-- The v2 request header (`HeaderV2` in protocol.rs). -/
structure HeaderV2 where
  api_key : Int
  api_version : Int
  correlation_id : Int
  client_id : Option (List Nat)
deriving DecidableEq, Repr

namespace HeaderV2

/-- Shallow embedding of `HeaderV2::deserialize` (protocol.rs): i16 api
key, i16 api version, i32 correlation id, nullable client id, then one
tag-buffer byte read and discarded. -/
def deserialize (src : List Nat) : Option (HeaderV2 × List Nat) :=
  match readI16 src with
  | none => none
  | some (api_key, s1) =>
    match readI16 s1 with
    | none => none
    | some (api_version, s2) =>
      match readI32 s2 with
      | none => none
      | some (correlation_id, s3) =>
        match NullableString.deserialize s3 with
        | none => none
        | some (client_id, s4) =>
          match TagBuffer.deserialize s4 with
          | none => none
          | some (_, s5) =>
            some (⟨api_key, api_version, correlation_id, client_id⟩, s5)

end HeaderV2

/-- Serialization of a `CompactArray` (protocol.rs): varint of
`length + 1` followed by the serialized elements. -/
def CompactArray.serializeWith {α : Type} (f : α → List Nat) (l : List α) : List Nat :=
  uvarint (l.length + 1) ++ l.flatMap f

/-- One `(api_key, min_version, max_version)` triple of the ApiVersions
response (`ApiVersionsApiKey` in api_versions.rs). -/
structure ApiVersionsApiKey where
  key : Int
  min_version : Int
  max_version : Int
deriving DecidableEq, Repr

/-- Shallow embedding of `ApiVersionsApiKey::serialize` (api_versions.rs):
three big-endian `i16`s followed by a tag buffer. -/
def ApiVersionsApiKey.serialize (k : ApiVersionsApiKey) : List Nat :=
  i16be k.key ++ i16be k.min_version ++ i16be k.max_version ++ TagBuffer.serialize

/-- The `API_KEYS` constant of api_versions.rs: ApiVersions (18, 0..4),
DescribeTopicPartitions (75, 0..0), Fetch (1, 0..16), in that order. -/
def API_KEYS : List ApiVersionsApiKey :=
  [⟨18, 0, 4⟩, ⟨75, 0, 0⟩, ⟨1, 0, 16⟩]

/-- The ApiVersions v3/v4 response body (`ApiVersionsResponseV3` in
api_versions.rs); the v0 response header is just the correlation id. -/
structure ApiVersionsResponseV3 where
  correlation_id : Int
  error_code : Int
  api_keys : List ApiVersionsApiKey
  throttle_time_ms : Int
deriving DecidableEq, Repr

namespace ApiVersionsResponseV3

/-- Shallow embedding of `ApiVersionsResponseV3::new` (api_versions.rs):
error code `UnsupportedVersion` (35) unless
`matches!(api_version, 0..=4)`, the fixed `API_KEYS` array and a zero
throttle time. -/
def new (req_header : HeaderV2) : ApiVersionsResponseV3 :=
  { correlation_id := req_header.correlation_id
    error_code := if 0 ≤ req_header.api_version ∧ req_header.api_version ≤ 4 then 0 else 35
    api_keys := API_KEYS
    throttle_time_ms := 0 }

/-- Shallow embedding of `<ApiVersionsResponseV3 as Response>::as_bytes`
(api_versions.rs): v0 header, then error code, compact api-keys array,
throttle time and a trailing tag buffer. -/
def as_bytes (r : ApiVersionsResponseV3) : List Nat :=
  i32be r.correlation_id ++ i16be r.error_code ++
    CompactArray.serializeWith ApiVersionsApiKey.serialize r.api_keys ++
    i32be r.throttle_time_ms ++ TagBuffer.serialize

end ApiVersionsResponseV3

/-- Lowercase hex digit of a value below 16, as emitted by `hex::encode`
(byte values of the characters 0-9 and a-f). -/
def hexDigit (x : Nat) : Nat :=
  if x < 10 then 48 + x else 87 + x

/-- UTF-8 bytes of `hex::encode`: two lowercase hex digits per input
byte. -/
def hexEncode (bs : List Nat) : List Nat :=
  bs.flatMap fun b => [hexDigit (b / 16), hexDigit (b % 16)]

/-- Value of one hex-digit character as accepted by `hex::decode`,
restricted to the lowercase letters that `hex::encode` emits (the claims
quantify over canonical lowercase UUIDs). -/
def hexVal (c : Nat) : Option Nat :=
  if 48 ≤ c ∧ c ≤ 57 then some (c - 48)
  else if 97 ≤ c ∧ c ≤ 102 then some (c - 87)
  else none

/-- Byte-pair decoding of `hex::decode`; an odd length or an invalid digit
is an error (the surrounding `expect` panics). -/
def hexDecode : List Nat → Option (List Nat)
  | [] => some []
  | [_] => none
  | c1 :: c2 :: rest =>
    match hexVal c1, hexVal c2, hexDecode rest with
    | some v1, some v2, some bs => some ((16 * v1 + v2) :: bs)
    | _, _, _ => none

/-- `String::insert` at a byte index (all characters involved are ASCII,
so byte and character indices coincide). -/
def insertAt : Nat → Nat → List Nat → List Nat
  | 0, c, l => c :: l
  | _ + 1, c, [] => [c]
  | n + 1, c, x :: l => x :: insertAt n c l

namespace Uuid

/-- Shallow embedding of `Uuid::deserialize` (protocol.rs) applied to the
16 bytes split off the buffer: hex-encode them and insert hyphens (byte
45) at offsets 8, 13, 18 and 23, in that order, each into the string
produced by the previous insertion. -/
def deserialize (bs : List Nat) : List Nat :=
  insertAt 23 45 (insertAt 18 45 (insertAt 13 45 (insertAt 8 45 (hexEncode bs))))

/-- Shallow embedding of `Uuid::serialize` (protocol.rs): remove every
hyphen (`s.replace('-', "")`), then `hex::decode`; malformed input makes
the `expect` panic (`none`). -/
def serialize (s : List Nat) : Option (List Nat) :=
  hexDecode (s.filter fun c => c != 45)

end Uuid

/-- A character of a canonical lowercase textual UUID other than the
hyphens: a decimal digit or a lowercase hex letter. -/
def isHexLowerDigit (c : Nat) : Prop :=
  (48 ≤ c ∧ c ≤ 57) ∨ (97 ≤ c ∧ c ≤ 102)

instance (c : Nat) : Decidable (isHexLowerDigit c) := by
  unfold isHexLowerDigit; infer_instance

/-- A canonical lowercase textual UUID: five all-hex groups of lengths
8, 4, 4, 4 and 12 separated by hyphens. -/
def canonicalUuid (s : List Nat) : Prop :=
  ∃ g1 g2 g3 g4 g5 : List Nat,
    g1.length = 8 ∧ g2.length = 4 ∧ g3.length = 4 ∧ g4.length = 4 ∧ g5.length = 12 ∧
    (∀ c ∈ g1 ++ g2 ++ g3 ++ g4 ++ g5, isHexLowerDigit c) ∧
    s = g1 ++ 45 :: (g2 ++ 45 :: (g3 ++ 45 :: (g4 ++ 45 :: g5)))

/-- UTF-8 bytes of a Lean string literal (all literals used here are
ASCII), for writing path and name constants. -/
def strBytes (s : String) : List Nat :=
  s.data.map Char.toNat

/-- The all-zero UUID string (`DEFAULT_UNKNOWN_TOPIC_UUID` in
describe_topic_partitions.rs). -/
def zeroUuid : List Nat :=
  strBytes "00000000-0000-0000-0000-000000000000"

/-- A parsed `Topic` record value (`TopicValue` in cluster_metadata.rs):
a compact nullable name and a textual topic id. -/
structure TopicValue where
  topic_name : Option (List Nat)
  topic_id : List Nat
deriving DecidableEq, Repr

/-- A parsed `Partition` record value (`PartitionValue` in
cluster_metadata.rs). -/
structure PartitionValue where
  partition_id : Nat
  topic_id : List Nat
  replicas : List Nat
  in_sync_replicas : List Nat
  removing_replicas : List Nat
  adding_replicas : List Nat
  leader_id : Nat
  leader_epoch : Nat
  partition_epoch : Nat
  directories : List (List Nat)
deriving DecidableEq, Repr

/-- A parsed record value (`RecordValue` in cluster_metadata.rs). -/
inductive RecordValue where
  | featureLevel (name : Option (List Nat)) (level : Nat)
  | topic (t : TopicValue)
  | partition (p : PartitionValue)
deriving DecidableEq, Repr

/-- The records of one record batch of the metadata log; only the parsed
record values matter to the handlers. -/
abbrev RecordBatch := List RecordValue

/-- A filesystem snapshot: a map from paths (UTF-8 byte lists) to file
contents, `none` meaning `std::fs::read` fails for that path. -/
abbrev FileSystem := List Nat → Option (List Nat)

/-- The per-partition segment path built by `raw_batch_for_topic`
(cluster_metadata.rs):
`/tmp/kraft-combined-logs/{topic_name}-{partition_id}/00000000000000000000.log`. -/
def segPath (topic_name : List Nat) (partition_id : Nat) : List Nat :=
  strBytes "/tmp/kraft-combined-logs/" ++ topic_name ++ strBytes "-" ++
    strBytes (Nat.repr partition_id) ++ strBytes "/00000000000000000000.log"

/-- The side-effecting `find`/`any` scan at the start of
`raw_batch_for_topic`: the name (with `None` defaulted to the empty
string) of the first `Topic` record, in batch then record order, whose
`topic_id` equals the requested one; the empty string when there is no
such record. -/
def firstTopicName (batches : List RecordBatch) (topic_id : List Nat) : List Nat :=
  match (batches.flatMap id).findSome? fun r =>
      match r with
      | .topic t => if t.topic_id = topic_id then some (t.topic_name.getD []) else none
      | _ => none with
  | some nm => nm
  | none => []

/-- Shallow embedding of `RecordBatches::raw_batch_for_topic`
(cluster_metadata.rs): look up the topic name for the id; an empty name
(id not found, or the record's name absent/empty) yields `Ok(None)`;
otherwise `std::fs::read` of the segment path, whose failure — including
a missing file — is propagated by `?` as an error. -/
def raw_batch_for_topic (batches : List RecordBatch) (fs : FileSystem)
    (topic_id : List Nat) (partition_id : Nat) : Except Unit (Option (List Nat)) :=
  let topic_name := firstTopicName batches topic_id
  if topic_name = [] then .ok none
  else
    match fs (segPath topic_name partition_id) with
    | none => .error ()
    | some bytes => .ok (some bytes)

/-- One partition entry of a Fetch response (`TopicPartition` in
api/fetch.rs). -/
structure TopicPartition where
  partition_index : Nat
  error_code : Int
  high_watermark : Int
  last_stable_offset : Int
  log_start_offset : Int
  aborted_transactions : List Unit
  preferred_read_replica : Int
  record_batches : List (List Nat)
deriving DecidableEq, Repr

/-- Shallow embedding of `<TopicPartition as Serialize>::serialize`
(api/fetch.rs); `BatchBytes::serialize` is the identity on the raw
bytes, so the record-batches compact array serializes its elements
verbatim after the varint length prefix. -/
def TopicPartition.serialize (p : TopicPartition) : List Nat :=
  i32be (p.partition_index : Int) ++ i16be p.error_code ++
    i32be p.high_watermark ++ i32be p.last_stable_offset ++
    i32be p.log_start_offset ++
    CompactArray.serializeWith (fun _ => []) p.aborted_transactions ++
    i32be p.preferred_read_replica ++
    CompactArray.serializeWith id p.record_batches ++ TagBuffer.serialize

/-- Shallow embedding of the per-topic partition loop of the Fetch
`handle_request` (api/fetch.rs): `error_code` starts as
`UnknownTopicId` (100) for the topic and is set to `None` (0) whenever
`raw_batch_for_topic` yields bytes; each emitted partition carries the
current `error_code`, zeroed offsets and the collected record batches;
an `Err` from `raw_batch_for_topic` is propagated by `?`. -/
def fetchPartitions (raw : Nat → Except Unit (Option (List Nat))) :
    List Nat → Int → Except Unit (List TopicPartition)
  | [], _ => .ok []
  | pid :: rest, error_code =>
    match raw pid with
    | .error e => .error e
    | .ok none =>
      match fetchPartitions raw rest error_code with
      | .error e => .error e
      | .ok out => .ok (⟨pid, error_code, 0, 0, 0, [], 0, []⟩ :: out)
    | .ok (some b) =>
      match fetchPartitions raw rest 0 with
      | .error e => .error e
      | .ok out => .ok (⟨pid, 0, 0, 0, 0, [], 0, [b]⟩ :: out)

/-- One partition entry of a DescribeTopicPartitions response
(`Partition` in api/describe_topic_partitions.rs). -/
structure DtpPartition where
  error_code : Int
  partition_index : Nat
  leader_id : Nat
  leader_epoch : Nat
  replicas : List Nat
  in_sync_replicas : List Nat
  eligible_leader_replicas : List Nat
  last_known_eligible_leader_replicas : List Nat
  offline_replicas : List Nat
deriving DecidableEq, Repr

/-- The `Partition::new` call in the handler's record loop
(api/describe_topic_partitions.rs lines 83-93): error code `None`, the
partition's index, leader id and epoch, its replicas and in-sync
replicas, then — in positional order — `adding_replicas` as the
eligible-leader-replicas argument, an empty vector as the
last-known-eligible-leader-replicas argument and `removing_replicas` as
the offline-replicas argument. -/
def mkDtpPartition (p : PartitionValue) : DtpPartition :=
  ⟨0, p.partition_id, p.leader_id, p.leader_epoch, p.replicas,
    p.in_sync_replicas, p.adding_replicas, [], p.removing_replicas⟩

/-- One topic entry of a DescribeTopicPartitions response (`Topic` in
api/describe_topic_partitions.rs). -/
structure DtpTopic where
  error_code : Int
  name : Option (List Nat)
  topic_id : List Nat
  is_internal : Bool
  partitions : List DtpPartition
  topic_authorized_operations : Int
deriving DecidableEq, Repr

/-- The per-(batch, requested-name) scan state of the
DescribeTopicPartitions handler: collected partitions, the current topic
id (initially the all-zero UUID) and the current topic error code
(initially `UnknownTopicOrPartition`, 3). -/
structure DtpScanState where
  partitions : List DtpPartition
  topic_id : List Nat
  err : Int
deriving DecidableEq, Repr

/-- One iteration of the record loop in the DescribeTopicPartitions
`handle_request` (api/describe_topic_partitions.rs): a `Topic` record
whose name equals the requested name overwrites the topic id and clears
the error; a `Partition` record whose topic id equals the current topic
id appends a partition entry. -/
def dtpScanStep (name : Option (List Nat)) (s : DtpScanState) (r : RecordValue) :
    DtpScanState :=
  match r with
  | .topic t =>
    if t.topic_name = name then { s with topic_id := t.topic_id, err := 0 } else s
  | .partition p =>
    if p.topic_id = s.topic_id then
      { s with partitions := s.partitions ++ [mkDtpPartition p] }
    else s
  | .featureLevel _ _ => s

/-- The full record loop for one batch and one requested name. -/
def dtpScanBatch (name : Option (List Nat)) (records : RecordBatch) : DtpScanState :=
  records.foldl (dtpScanStep name) ⟨[], zeroUuid, 3⟩

/-- The topic entry the handler pushes for one batch and one requested
name, when it pushes one: only when at least one partition was
collected. -/
def dtpEntryFor (name : Option (List Nat)) (records : RecordBatch) : Option DtpTopic :=
  let s := dtpScanBatch name records
  if s.partitions = [] then none
  else some ⟨s.err, name, s.topic_id, false, s.partitions, 0x0DF⟩

/-- Pushing an optional entry onto the accumulated topic list. -/
def dtpPush (acc : List DtpTopic) : Option DtpTopic → List DtpTopic
  | some e => acc ++ [e]
  | none => acc

/-- The handler's nested batch/name loops (api/describe_topic_partitions.rs
lines 68-107), accumulating topic entries. -/
def dtpMainLoop (batches : List RecordBatch) (names : List (Option (List Nat))) :
    List DtpTopic :=
  batches.foldl
    (fun acc batch =>
      names.foldl (fun acc2 n => dtpPush acc2 (dtpEntryFor n batch)) acc)
    []

/-- The fallback entry pushed for a requested name no collected entry
carries: `UnknownTopicOrPartition` (3), the all-zero UUID, no
partitions, authorized operations `0x0DF`. -/
def dtpUnknownEntry (name : Option (List Nat)) : DtpTopic :=
  ⟨3, name, zeroUuid, false, [], 0x0DF⟩

/-- The handler's second loop (api/describe_topic_partitions.rs lines
109-119): for each requested name not yet named by any entry of the
evolving list, push the unknown-topic entry. -/
def dtpFallback (topics : List DtpTopic) (names : List (Option (List Nat))) :
    List DtpTopic :=
  names.foldl
    (fun ts n => if ts.any fun t => t.name = n then ts else ts ++ [dtpUnknownEntry n])
    topics

/-- The topic entries of the DescribeTopicPartitions response for a
request carrying `names`, with the metadata log parsed into `batches`
(api/describe_topic_partitions.rs `handle_request`). -/
def dtpHandleRequest (batches : List RecordBatch) (names : List (Option (List Nat))) :
    List DtpTopic :=
  dtpFallback (dtpMainLoop batches names) names

/-- The topic id carried by a record, when the record is a `Topic`
record. -/
def topicIdOf : RecordValue → Option (List Nat)
  | .topic t => some t.topic_id
  | _ => none

/-- The topic id carried by a record, when the record is a `Partition`
record. -/
def partitionTopicIdOf : RecordValue → Option (List Nat)
  | .partition p => some p.topic_id
  | _ => none

/-- Whether a record is a `Topic` record carrying the given (nullable)
name. -/
def isTopicNamed (n : Option (List Nat)) : RecordValue → Bool
  | .topic t => t.topic_name = n
  | _ => false

/-- The response partition entry a `Partition` record with the given
topic id contributes in the DescribeTopicPartitions handler, if any. -/
def matchingPartitionEntry (tid : List Nat) : RecordValue → Option DtpPartition
  | .partition p => if p.topic_id = tid then some (mkDtpPartition p) else none
  | _ => none

/-- Round trip of the `i16` codec: reading back a big-endian-encoded
in-range value yields the value and leaves the rest of the buffer. -/
theorem readI16_i16be (len : Int) (rest : List Nat)
    (h1 : -32768 ≤ len) (h2 : len ≤ 32767) :
    readI16 (i16be len ++ rest) = some (len, rest) := by
  simp only [i16be, readI16, List.cons_append, List.nil_append, decodeI16]
  have hm : (len % 65536).toNat < 65536 := by omega
  have hsplit : (len % 65536).toNat / 256 * 256 + (len % 65536).toNat % 256 =
      (len % 65536).toNat := by omega
  rw [hsplit]
  split <;> simp <;> omega

/-- C1: For every ApiVersions request, the response body's error_code is
UnsupportedVersion (35) if the request header's api_version is outside
0..=4 and None (0) otherwise, and in both cases the api_keys compact
array is exactly the three triples (18,0,4), (75,0,0), (1,0,16) each
followed by a tag buffer, with throttle_time_ms=0 and a trailing tag
buffer. -/
theorem apiVersions_response_correct (h : HeaderV2) :
    ((ApiVersionsResponseV3.new h).error_code =
      if h.api_version < 0 ∨ 4 < h.api_version then 35 else 0) ∧
    (ApiVersionsResponseV3.new h).api_keys =
      [⟨18, 0, 4⟩, ⟨75, 0, 0⟩, ⟨1, 0, 16⟩] ∧
    (ApiVersionsResponseV3.new h).throttle_time_ms = 0 ∧
    (ApiVersionsResponseV3.new h).as_bytes =
      i32be h.correlation_id ++
        (if h.api_version < 0 ∨ 4 < h.api_version then [0, 35] else [0, 0]) ++
        ([4] ++
          ([0, 18] ++ [0, 0] ++ [0, 4] ++ [0] ++
            ([0, 75] ++ [0, 0] ++ [0, 0] ++ [0] ++
              ([0, 1] ++ [0, 0] ++ [0, 16] ++ [0])))) ++
        ([0, 0, 0, 0] ++ [0]) := by
  have huv : uvarint 4 = [4] := by rw [uvarint]; rfl
  by_cases hv : 0 ≤ h.api_version ∧ h.api_version ≤ 4
  · refine ⟨by rw [if_neg (by omega)]; simp [ApiVersionsResponseV3.new, hv], rfl, rfl, ?_⟩
    rw [if_neg (by omega)]
    simp [ApiVersionsResponseV3.new, ApiVersionsResponseV3.as_bytes, hv,
      CompactArray.serializeWith, API_KEYS, ApiVersionsApiKey.serialize,
      TagBuffer.serialize, i16be, i32be, huv]
  · refine ⟨by rw [if_pos (by omega)]; simp [ApiVersionsResponseV3.new, hv], rfl, rfl, ?_⟩
    rw [if_pos (by omega)]
    simp [ApiVersionsResponseV3.new, ApiVersionsResponseV3.as_bytes, hv,
      CompactArray.serializeWith, API_KEYS, ApiVersionsApiKey.serialize,
      TagBuffer.serialize, i16be, i32be, huv]

/-- C7 counterexample: a v2 request header whose trailing tag-buffer byte
is 9 — not the encoding UVARINT(0) — is deserialized successfully, and
`TagBuffer::deserialize` returns the non-zero byte without any decode
error. -/
theorem tagBuffer_nonzero_accepted_cex :
    HeaderV2.deserialize [0, 18, 0, 4, 0, 0, 0, 7, 0, 0, 9] =
      some (⟨18, 4, 7, none⟩, []) ∧
    TagBuffer.deserialize [9] = some (9, []) ∧ (9 : Nat) ≠ 0 := by
  refine ⟨rfl, rfl, by decide⟩

/-- C7 (amended): `TagBuffer::deserialize` — the tag-buffer decoder used
after the v2 request header and after request elements — consumes one
byte and accepts every value without validation; only the record-value
decoder checks its varint tagged-fields count, panicking (not returning
a decode error) unless it decodes to zero. -/
theorem tagBuffer_accepts_any_byte :
    (∀ (b : Nat) (rest : List Nat), TagBuffer.deserialize (b :: rest) = some (b, rest)) ∧
    (∀ rest : List Nat, readRecordTagCount (0 :: rest) = some rest) ∧
    (∀ (b : Nat) (rest : List Nat), b < 128 → b ≠ 0 →
      readRecordTagCount (b :: rest) = none) := by
  refine ⟨fun b rest => rfl, fun rest => rfl, fun b rest hb hb0 => ?_⟩
  simp only [readRecordTagCount, decodeZigzag, decodeUvar, if_pos hb]
  have hne : (if b % 2 = 0 then ((b / 2 : Nat) : Int) else -(((b + 1) / 2 : Nat) : Int)) ≠ 0 := by
    split <;> omega
  rw [if_neg hne]

/-- Witness for the C7 amended theorem at concrete inputs. -/
theorem tagBuffer_accepts_any_byte_witness :
    TagBuffer.deserialize [7, 5] = some (7, [5]) ∧
    readRecordTagCount [0, 5] = some [5] ∧
    readRecordTagCount [2, 5] = none :=
  ⟨tagBuffer_accepts_any_byte.1 7 [5], tagBuffer_accepts_any_byte.2.1 [5],
    tagBuffer_accepts_any_byte.2.2 2 [5] (by decide) (by decide)⟩

/-- C8 counterexample: a `NullableString` read whose declared length (5)
exceeds the remaining buffer (1 byte) succeeds with a silently
substituted `None` — it does not fail — while a fixed-width read on a
short buffer is a panic, not an error value; no `Truncated` decode error
exists anywhere in the codec. -/
theorem truncated_read_substitutes_none_cex :
    NullableString.deserialize [0, 5, 97] = some (none, [97]) ∧
    NullableString.deserialize [0, 5, 97] ≠ none ∧
    readI16 [7] = none := by
  refine ⟨by decide, by decide, rfl⟩

/-- C8 (amended): when fewer bytes remain than the read needs, the
fixed-width integer and UUID reads panic — aborting, with no error value
at all — while the `NullableString` and `CompactNullableString` reads
succeed with a substituted `None` value; no read returns a `Truncated`
decode error. -/
theorem primitive_reads_lack_truncated_error :
    (∀ src : List Nat, src.length < 2 → readI16 src = none) ∧
    (∀ src : List Nat, src.length < 4 → readI32 src = none) ∧
    (∀ src : List Nat, src.length < 16 → readUuidBytes src = none) ∧
    (∀ (len : Int) (rest : List Nat), 1 ≤ len → len ≤ 32767 →
      rest.length < len.toNat →
      NullableString.deserialize (i16be len ++ rest) = some (none, rest)) ∧
    (∀ (n : Nat) (rest : List Nat), 1 ≤ n → n + 1 < 128 → rest.length < n →
      CompactNullableString.deserialize ((n + 1) :: rest) = some (none, rest)) := by
  refine ⟨?_, ?_, ?_, ?_, ?_⟩
  · intro src hlen
    match src with
    | [] => rfl
    | [b] => rfl
    | b0 :: b1 :: rest => simp at hlen; omega
  · intro src hlen
    match src with
    | [] => rfl
    | [b] => rfl
    | [b0, b1] => rfl
    | [b0, b1, b2] => rfl
    | b0 :: b1 :: b2 :: b3 :: rest => simp at hlen; omega
  · intro src hlen
    simp only [readUuidBytes]
    rw [if_neg (by omega)]
  · intro len rest h1 h2 h3
    simp only [NullableString.deserialize, readI16_i16be len rest (by omega) (by omega)]
    have hne : len ≠ -1 := by omega
    simp only [if_neg hne, usizeOfI16, if_pos (by omega : (0 : Int) ≤ len)]
    rw [if_neg (by omega), if_pos h3]
  · intro n rest h1 h2 h3
    simp only [CompactNullableString.deserialize, decodeUvar, if_pos (by omega : n + 1 < 128)]
    rw [if_neg (by omega)]
    simp only [Nat.add_sub_cancel]
    rw [if_pos h3]

/-- Witness for the C8 amended theorem at concrete inputs. -/
theorem primitive_reads_lack_truncated_error_witness :
    readI16 [7] = none ∧ readI32 [1, 2, 3] = none ∧
    readUuidBytes [1, 2, 3] = none ∧
    NullableString.deserialize (i16be 5 ++ [97]) = some (none, [97]) ∧
    CompactNullableString.deserialize [6, 97] = some (none, [97]) :=
  ⟨primitive_reads_lack_truncated_error.1 [7] (by decide),
    primitive_reads_lack_truncated_error.2.1 [1, 2, 3] (by decide),
    primitive_reads_lack_truncated_error.2.2.1 [1, 2, 3] (by decide),
    primitive_reads_lack_truncated_error.2.2.2.1 5 [97] (by decide) (by decide) (by decide),
    primitive_reads_lack_truncated_error.2.2.2.2 5 [97] (by decide) (by decide) (by decide)⟩

/-- C10: `NullableString` deserialization maps an int16 length of 0 to
null (`None`) exactly as it maps length −1, so a present-but-empty
client_id string is indistinguishable from an absent one after decoding;
among buffers that fit in a 64-bit address space, only lengths ≥ 1 can
produce a `Some` value. -/
theorem nullableString_zero_len_is_null :
    (∀ rest : List Nat, NullableString.deserialize (i16be 0 ++ rest) = some (none, rest)) ∧
    (∀ rest : List Nat,
      NullableString.deserialize (i16be (-1) ++ rest) = some (none, rest)) ∧
    (∀ (len : Int) (rest : List Nat), -32768 ≤ len → len ≤ 0 →
      rest.length < 2 ^ 64 - 2 ^ 15 →
      NullableString.deserialize (i16be len ++ rest) = some (none, rest)) ∧
    (∀ (len : Int) (rest s tail : List Nat), -32768 ≤ len → len ≤ 32767 →
      rest.length < 2 ^ 64 - 2 ^ 15 →
      NullableString.deserialize (i16be len ++ rest) = some (some s, tail) →
      1 ≤ len) := by
  have key : ∀ (len : Int) (rest : List Nat), -32768 ≤ len → len ≤ 0 →
      rest.length < 2 ^ 64 - 2 ^ 15 →
      NullableString.deserialize (i16be len ++ rest) = some (none, rest) := by
    intro len rest h1 h2 h3
    simp only [NullableString.deserialize, readI16_i16be len rest (by omega) (by omega)]
    by_cases hm1 : len = -1
    · simp [hm1]
    · simp only [if_neg hm1, usizeOfI16]
      by_cases h0 : (0 : Int) ≤ len
      · have hz : len = 0 := by omega
        simp [hz]
      · rw [if_neg h0]
        rw [if_neg (by omega), if_pos (by omega)]
  refine ⟨fun rest => ?_, fun rest => ?_, key, ?_⟩
  · simp only [NullableString.deserialize, readI16_i16be 0 rest (by omega) (by omega)]
    simp [usizeOfI16]
  · simp only [NullableString.deserialize, readI16_i16be (-1) rest (by omega) (by omega)]
    simp
  · intro len rest s tail h1 h2 h3 heq
    by_contra hlt
    rw [key len rest (by omega) (by omega) h3] at heq
    simp at heq

/-- Witness for C10 at concrete inputs: a zero length and a −1 length
both decode to `None`, length −2 decodes to `None` as well, and a
length-1 read of an actual byte is rejected as a source of `Some` only
when the length is positive — exhibited by the positive case itself. -/
theorem nullableString_zero_len_is_null_witness :
    NullableString.deserialize (i16be 0 ++ [97]) = some (none, [97]) ∧
    NullableString.deserialize (i16be (-1) ++ [97]) = some (none, [97]) ∧
    NullableString.deserialize (i16be (-2) ++ [97]) = some (none, [97]) ∧
    (1 : Int) ≤ 1 :=
  ⟨nullableString_zero_len_is_null.1 [97],
    nullableString_zero_len_is_null.2.1 [97],
    nullableString_zero_len_is_null.2.2.1 (-2) [97] (by decide) (by decide) (by decide),
    nullableString_zero_len_is_null.2.2.2 1 [97] [97] []
      (by decide) (by decide) (by decide) (by decide)⟩

/-- When no `Topic` record of the log carries the requested topic id, the
side-effecting name scan of `raw_batch_for_topic` leaves the name
empty. -/
theorem firstTopicName_eq_nil (batches : List RecordBatch) (tid : List Nat)
    (h : ∀ batch ∈ batches, ∀ r ∈ batch, topicIdOf r ≠ some tid) :
    firstTopicName batches tid = [] := by
  have hnone : (batches.flatMap id).findSome?
      (fun r =>
        match r with
        | .topic t => if t.topic_id = tid then some (t.topic_name.getD []) else none
        | _ => none) = none := by
    rw [List.findSome?_eq_none_iff]
    intro r hr
    rcases List.mem_flatMap.mp hr with ⟨batch, hb, hrb⟩
    have := h batch hb r hrb
    match r with
    | .topic t =>
      simp only [topicIdOf] at this
      have hne : t.topic_id ≠ tid := by
        intro hcontra; exact this (by rw [hcontra])
      simp [hne]
    | .partition p => rfl
    | .featureLevel nm lv => rfl
  simp only [firstTopicName, hnone]

/-- C5 counterexample: with a metadata log containing a `Topic` record for
the requested topic id but no segment file on disk, `raw_batch_for_topic`
propagates the read failure as an error rather than returning the no-data
result the claim requires. -/
theorem raw_batch_missing_file_errors_cex :
    raw_batch_for_topic [[.topic ⟨some (strBytes "foo"), strBytes "abc"⟩]]
        (fun _ => none) (strBytes "abc") 0 = .error () ∧
    raw_batch_for_topic [[.topic ⟨some (strBytes "foo"), strBytes "abc"⟩]]
        (fun _ => none) (strBytes "abc") 0 ≠ .ok none := by
  refine ⟨rfl, ?_⟩
  intro hcontra
  rw [show raw_batch_for_topic [[.topic ⟨some (strBytes "foo"), strBytes "abc"⟩]]
      (fun _ => none) (strBytes "abc") 0 = .error () from rfl] at hcontra
  exact Except.noConfusion hcontra

/-- C5 (amended): `raw_batch_for_topic` returns `Ok(None)` when the topic
id appears in no `Topic` record of the metadata log; when the first
matching `Topic` record has a non-empty name and the segment file cannot
be read — including when it simply does not exist — the failure is
propagated as an error rather than treated as no data. -/
theorem raw_batch_for_topic_spec (batches : List RecordBatch) (fs : FileSystem)
    (tid : List Nat) (pid : Nat) :
    ((∀ batch ∈ batches, ∀ r ∈ batch, topicIdOf r ≠ some tid) →
      raw_batch_for_topic batches fs tid pid = .ok none) ∧
    (∀ nm : List Nat, firstTopicName batches tid = nm → nm ≠ [] →
      fs (segPath nm pid) = none →
      raw_batch_for_topic batches fs tid pid = .error ()) := by
  constructor
  · intro h
    simp [raw_batch_for_topic, firstTopicName_eq_nil batches tid h]
  · intro nm hnm hne hfs
    simp only [raw_batch_for_topic, hnm, if_neg hne, hfs]

/-- Witness for the C5 amended theorem at concrete inputs: an unknown
topic id yields `Ok(None)`; a known topic whose segment file is absent
yields an error. -/
theorem raw_batch_for_topic_spec_witness :
    raw_batch_for_topic [[.topic ⟨some (strBytes "foo"), strBytes "abc"⟩]]
        (fun _ => none) (strBytes "xyz") 0 = .ok none ∧
    raw_batch_for_topic [[.topic ⟨some (strBytes "foo"), strBytes "abc"⟩]]
        (fun _ => none) (strBytes "abc") 0 = .error () :=
  ⟨(raw_batch_for_topic_spec [[.topic ⟨some (strBytes "foo"), strBytes "abc"⟩]]
        (fun _ => none) (strBytes "xyz") 0).1 (by decide),
    (raw_batch_for_topic_spec [[.topic ⟨some (strBytes "foo"), strBytes "abc"⟩]]
        (fun _ => none) (strBytes "abc") 0).2 (strBytes "foo") rfl (by decide) rfl⟩

/-- The no-data result of `raw_batch_for_topic` does not depend on the
partition index: it arises exactly when the topic-name scan comes back
empty, which is a property of the log and the topic id alone. -/
theorem raw_batch_ok_none_all (batches : List RecordBatch) (fs : FileSystem)
    (tid : List Nat) (pid : Nat)
    (h : raw_batch_for_topic batches fs tid pid = .ok none) :
    ∀ pid2 : Nat, raw_batch_for_topic batches fs tid pid2 = .ok none := by
  intro pid2
  simp only [raw_batch_for_topic] at h ⊢
  by_cases hnm : firstTopicName batches tid = []
  · simp [hnm]
  · rw [if_neg hnm] at h
    cases hfs : fs (segPath (firstTopicName batches tid) pid) with
    | none => rw [hfs] at h; exact Except.noConfusion h
    | some c =>
      rw [hfs] at h
      simp at h

/-- When `raw_batch_for_topic` yields bytes, they are exactly the content
of the per-partition segment file on disk. -/
theorem raw_batch_ok_some_is_file (batches : List RecordBatch) (fs : FileSystem)
    (tid : List Nat) (pid : Nat) (b : List Nat)
    (h : raw_batch_for_topic batches fs tid pid = .ok (some b)) :
    fs (segPath (firstTopicName batches tid) pid) = some b := by
  simp only [raw_batch_for_topic] at h
  by_cases hnm : firstTopicName batches tid = []
  · rw [if_pos hnm] at h
    injection h with h2
    exact Option.noConfusion h2
  · rw [if_neg hnm] at h
    cases hfs : fs (segPath (firstTopicName batches tid) pid) with
    | none => rw [hfs] at h; exact Except.noConfusion h
    | some c =>
      rw [hfs] at h
      injection h with h2

/-- When every partition of the topic yields the no-data result, the
partition loop of the Fetch handler emits one entry per requested
partition, each carrying the initial error code and no record batches. -/
theorem fetchPartitions_all_none (raw : Nat → Except Unit (Option (List Nat)))
    (hall : ∀ p : Nat, raw p = .ok none) :
    ∀ (pids : List Nat) (err : Int),
      fetchPartitions raw pids err = .ok (pids.map fun p => ⟨p, err, 0, 0, 0, [], 0, []⟩) := by
  intro pids
  induction pids with
  | nil => intro err; rfl
  | cons pid rest ih =>
    intro err
    simp only [fetchPartitions, hall pid, ih err, List.map_cons]

/-- Positional specification of the Fetch partition loop on success: one
output entry per requested partition, and every partition for which the
raw segment lookup yields bytes is emitted with error code `None` (0),
zeroed offsets and exactly that byte blob as its single record batch,
whatever the error-code state reached by the preceding partitions. -/
theorem fetchPartitions_ok_spec (raw : Nat → Except Unit (Option (List Nat))) :
    ∀ (pids : List Nat) (err : Int) (out : List TopicPartition),
      fetchPartitions raw pids err = .ok out →
      out.length = pids.length ∧
      ∀ (i : Nat) (hi : i < pids.length) (hi2 : i < out.length) (b : List Nat),
        raw pids[i] = .ok (some b) →
        out[i] = ⟨pids[i], 0, 0, 0, 0, [], 0, [b]⟩ := by
  intro pids
  induction pids with
  | nil =>
    intro err out h
    injection h with h2
    subst h2
    exact ⟨rfl, fun i hi => absurd hi (by simp)⟩
  | cons pid rest ih =>
    intro err out h
    simp only [fetchPartitions] at h
    cases hraw : raw pid with
    | error e => rw [hraw] at h; exact Except.noConfusion h
    | ok ob =>
      rw [hraw] at h
      cases ob with
      | none =>
        cases hrec : fetchPartitions raw rest err with
        | error e => rw [hrec] at h; exact Except.noConfusion h
        | ok out2 =>
          rw [hrec] at h
          injection h with h2
          subst h2
          obtain ⟨hlen, hspec⟩ := ih err out2 hrec
          refine ⟨by simp [hlen], ?_⟩
          intro i hi hi2 b hb
          match i with
          | 0 =>
            rw [show (pid :: rest)[0] = pid from rfl, hraw] at hb
            injection hb with hb2
            exact Option.noConfusion hb2
          | i + 1 =>
            rw [List.getElem_cons_succ] at hb ⊢
            have hi3 : i < rest.length := by simp at hi; omega
            have hi4 : i < out2.length := by simp at hi2; omega
            exact hspec i hi3 hi4 b hb
      | some b0 =>
        cases hrec : fetchPartitions raw rest 0 with
        | error e => rw [hrec] at h; exact Except.noConfusion h
        | ok out2 =>
          rw [hrec] at h
          injection h with h2
          subst h2
          obtain ⟨hlen, hspec⟩ := ih 0 out2 hrec
          refine ⟨by simp [hlen], ?_⟩
          intro i hi hi2 b hb
          match i with
          | 0 =>
            rw [show (pid :: rest)[0] = pid from rfl, hraw] at hb
            injection hb with hb2
            injection hb2 with hb3
            simp [hb3]
          | i + 1 =>
            rw [List.getElem_cons_succ] at hb ⊢
            have hi3 : i < rest.length := by simp at hi; omega
            have hi4 : i < out2.length := by simp at hi2; omega
            exact hspec i hi3 hi4 b hb

/-- C4: In the Fetch handler, for every requested (topic_id,
partition_index) pair for which raw_segment yields None, the emitted
partition entry has error_code=UnknownTopicID (100) and an empty
record_batches array, regardless of what other partitions of the same
topic yielded — indeed the no-data result forces every partition of the
topic to the same entry shape, because it arises only when the topic id
is absent from the metadata log. -/
theorem fetch_unknown_topic_all_entries (batches : List RecordBatch) (fs : FileSystem)
    (tid : List Nat) (pids : List Nat) (out : List TopicPartition) (i : Nat)
    (hi : i < pids.length)
    (hout : fetchPartitions (raw_batch_for_topic batches fs tid) pids 100 = .ok out)
    (hnone : raw_batch_for_topic batches fs tid pids[i] = .ok none) :
    out = pids.map fun p => ⟨p, 100, 0, 0, 0, [], 0, []⟩ := by
  have hall := raw_batch_ok_none_all batches fs tid pids[i] hnone
  rw [fetchPartitions_all_none (raw_batch_for_topic batches fs tid) hall pids 100] at hout
  injection hout with h2
  exact h2.symm

/-- Witness for C4 at a concrete input: an empty metadata log makes both
requested partitions yield the no-data result, and both emitted entries
carry error code 100 and no record batches. -/
theorem fetch_unknown_topic_all_entries_witness :
    ([⟨0, 100, 0, 0, 0, [], 0, []⟩, ⟨1, 100, 0, 0, 0, [], 0, []⟩] : List TopicPartition) =
      ([0, 1] : List Nat).map (fun p => ⟨p, 100, 0, 0, 0, [], 0, []⟩) :=
  fetch_unknown_topic_all_entries [] (fun _ => none) [] [0, 1]
    [⟨0, 100, 0, 0, 0, [], 0, []⟩, ⟨1, 100, 0, 0, 0, [], 0, []⟩] 0 (by decide) rfl rfl

/-- C3: In the Fetch handler, for every requested (topic_id,
partition_index) pair for which raw_segment yields bytes, the emitted
partition has error_code=None and its record_batches field is serialized
as a compact array of length 1 (wire prefix UVARINT(2)) whose single
element's bytes are byte-identical to the on-disk segment file. -/
theorem fetch_found_partition_spec (batches : List RecordBatch) (fs : FileSystem)
    (tid : List Nat) (pids : List Nat) (out : List TopicPartition)
    (hout : fetchPartitions (raw_batch_for_topic batches fs tid) pids 100 = .ok out) :
    out.length = pids.length ∧
    ∀ (i : Nat) (hi : i < pids.length) (hi2 : i < out.length) (b : List Nat),
      raw_batch_for_topic batches fs tid pids[i] = .ok (some b) →
      out[i].error_code = 0 ∧
      out[i].record_batches = [b] ∧
      CompactArray.serializeWith id out[i].record_batches = 2 :: b ∧
      fs (segPath (firstTopicName batches tid) pids[i]) = some b := by
  obtain ⟨hlen, hspec⟩ :=
    fetchPartitions_ok_spec (raw_batch_for_topic batches fs tid) pids 100 out hout
  refine ⟨hlen, ?_⟩
  intro i hi hi2 b hb
  have he := hspec i hi hi2 b hb
  have hser : CompactArray.serializeWith id [b] = 2 :: b := by
    have h2 : uvarint 2 = [2] := by rw [uvarint]; rfl
    simp [CompactArray.serializeWith, h2]
  rw [he]
  exact ⟨rfl, rfl, hser, raw_batch_ok_some_is_file batches fs tid pids[i] b hb⟩

/-- Witness for C3 at a concrete input: one topic, one partition whose
segment file holds the bytes [9, 9]; the emitted entry has error code 0
and serializes its record-batches array as UVARINT(2) followed by the
file bytes. -/
theorem fetch_found_partition_spec_witness :
    (⟨0, 0, 0, 0, 0, [], 0, [[9, 9]]⟩ : TopicPartition).error_code = 0 ∧
    (⟨0, 0, 0, 0, 0, [], 0, [[9, 9]]⟩ : TopicPartition).record_batches = [[9, 9]] ∧
    CompactArray.serializeWith id
      (⟨0, 0, 0, 0, 0, [], 0, [[9, 9]]⟩ : TopicPartition).record_batches = 2 :: [9, 9] ∧
    (fun _ => some [9, 9] : FileSystem)
      (segPath (firstTopicName [[.topic ⟨some (strBytes "foo"), strBytes "abc"⟩]]
        (strBytes "abc")) 0) = some [9, 9] :=
  (fetch_found_partition_spec [[.topic ⟨some (strBytes "foo"), strBytes "abc"⟩]]
    (fun _ => some [9, 9]) (strBytes "abc") [0] [⟨0, 0, 0, 0, 0, [], 0, [[9, 9]]⟩] rfl).2
    0 (by decide) (by decide) [9, 9] rfl

/-- Inserting a character always grows the string by one. -/
theorem insertAt_length (n c : Nat) (l : List Nat) :
    (insertAt n c l).length = l.length + 1 := by
  induction n generalizing l with
  | zero => rfl
  | succ n ih =>
    cases l with
    | nil => rfl
    | cons x xs => simp [insertAt, ih]

/-- The inserted character sits at the insertion offset. -/
theorem getElem?_insertAt_self (n c : Nat) (l : List Nat) (h : n ≤ l.length) :
    (insertAt n c l)[n]? = some c := by
  induction n generalizing l with
  | zero => simp [insertAt]
  | succ n ih =>
    cases l with
    | nil => simp at h
    | cons x xs =>
      simp only [insertAt, List.getElem?_cons_succ]
      exact ih xs (by simpa using h)

/-- Characters before the insertion offset are unchanged. -/
theorem getElem?_insertAt_lt (n c m : Nat) (l : List Nat) (hm : m < n) (h : n ≤ l.length) :
    (insertAt n c l)[m]? = l[m]? := by
  induction m generalizing n l with
  | zero =>
    cases n with
    | zero => omega
    | succ n =>
      cases l with
      | nil => simp at h
      | cons x xs => simp [insertAt]
  | succ m ih =>
    cases n with
    | zero => omega
    | succ n =>
      cases l with
      | nil => simp at h
      | cons x xs =>
        simp only [insertAt, List.getElem?_cons_succ]
        exact ih n xs (by omega) (by simpa using h)

/-- Inserting exactly after a prefix splices the character between the
prefix and the suffix. -/
theorem insertAt_append (l1 l2 : List Nat) (c : Nat) :
    insertAt l1.length c (l1 ++ l2) = l1 ++ c :: l2 := by
  induction l1 with
  | nil => rfl
  | cons x xs ih => simp [insertAt, ih]

/-- Filtering away the inserted character recovers the filtered
original. -/
theorem filter_insertAt (n c : Nat) (l : List Nat) (p : Nat → Bool) (hc : p c = false) :
    (insertAt n c l).filter p = l.filter p := by
  induction n generalizing l with
  | zero => simp [insertAt, List.filter, hc]
  | succ n ih =>
    cases l with
    | nil => simp [insertAt, List.filter, hc]
    | cons x xs =>
      simp only [insertAt, List.filter]
      cases p x <;> simp [ih]

/-- Hex digits are never the hyphen (45). -/
theorem hexDigit_ne_hyphen (x : Nat) : hexDigit x ≠ 45 := by
  unfold hexDigit; split <;> omega

/-- Decoding the hex digit of a value below 16 recovers the value. -/
theorem hexVal_hexDigit (x : Nat) (h : x < 16) : hexVal (hexDigit x) = some x := by
  interval_cases x <;> rfl

/-- Every character `hex::encode` emits is a lowercase hex digit. -/
theorem hexDigit_isHexLowerDigit (x : Nat) (h : x < 16) : isHexLowerDigit (hexDigit x) := by
  unfold hexDigit isHexLowerDigit; split <;> omega

/-- A lowercase hex character decodes to a value below 16 whose re-encoded
digit is the character itself. -/
theorem hexVal_of_isHexLowerDigit (c : Nat) (h : isHexLowerDigit c) :
    ∃ v : Nat, hexVal c = some v ∧ v < 16 ∧ hexDigit v = c := by
  rcases h with ⟨h1, h2⟩ | ⟨h1, h2⟩
  · refine ⟨c - 48, ?_, by omega, ?_⟩
    · unfold hexVal
      rw [if_pos ⟨h1, h2⟩]
    · unfold hexDigit
      rw [if_pos (by omega)]
      omega
  · refine ⟨c - 87, ?_, by omega, ?_⟩
    · unfold hexVal
      rw [if_neg (by omega), if_pos ⟨h1, h2⟩]
    · unfold hexDigit
      rw [if_neg (by omega)]
      omega

/-- Decoding an encoding recovers the bytes, for genuine byte values. -/
theorem hexDecode_hexEncode (bs : List Nat) (h : ∀ b ∈ bs, b < 256) :
    hexDecode (hexEncode bs) = some bs := by
  induction bs with
  | nil => rfl
  | cons b rest ih =>
    have hb : b < 256 := h b (by simp)
    have hrest := ih fun x hx => h x (by simp [hx])
    simp only [hexEncode, List.flatMap_cons, List.cons_append, List.nil_append]
    show hexDecode (hexDigit (b / 16) :: hexDigit (b % 16) :: rest.flatMap _) = _
    simp only [hexDecode, hexVal_hexDigit (b / 16) (by omega),
      hexVal_hexDigit (b % 16) (by omega)]
    rw [show rest.flatMap (fun b => [hexDigit (b / 16), hexDigit (b % 16)]) =
      hexEncode rest from rfl, hrest]
    show some ((16 * (b / 16) + b % 16) :: rest) = some (b :: rest)
    have : 16 * (b / 16) + b % 16 = b := by omega
    rw [this]

/-- The encoding of a byte list is twice as long. -/
theorem hexEncode_length (bs : List Nat) : (hexEncode bs).length = 2 * bs.length := by
  induction bs with
  | nil => rfl
  | cons b rest ih => simp [hexEncode, List.flatMap_cons] at ih ⊢; omega

/-- The encoding of a byte list contains no hyphen. -/
theorem hexEncode_no_hyphen (bs : List Nat) : ∀ c ∈ hexEncode bs, c ≠ 45 := by
  intro c hc
  simp only [hexEncode, List.mem_flatMap] at hc
  rcases hc with ⟨b, _, hb⟩
  simp only [List.mem_cons, List.not_mem_nil, or_false] at hb
  rcases hb with h | h <;> rw [h] <;> exact hexDigit_ne_hyphen _

/-- An even-length all-hex character string decodes to a byte list whose
re-encoding is the original string. -/
theorem hexDecode_total : ∀ l : List Nat, (∀ c ∈ l, isHexLowerDigit c) →
    l.length % 2 = 0 →
    ∃ bs : List Nat, hexDecode l = some bs ∧ hexEncode bs = l ∧ ∀ b ∈ bs, b < 256
  | [] => fun _ _ => ⟨[], rfl, rfl, by simp⟩
  | [c] => fun _ hlen => by simp at hlen
  | c1 :: c2 :: rest => fun hhex hlen => by
    obtain ⟨v1, hv1, hv1lt, hd1⟩ := hexVal_of_isHexLowerDigit c1 (hhex c1 (by simp))
    obtain ⟨v2, hv2, hv2lt, hd2⟩ := hexVal_of_isHexLowerDigit c2 (hhex c2 (by simp))
    obtain ⟨bs, hbs, henc, hlt⟩ :=
      hexDecode_total rest (fun c hc => hhex c (by simp [hc])) (by simp at hlen ⊢; omega)
    refine ⟨(16 * v1 + v2) :: bs, ?_, ?_, ?_⟩
    · simp only [hexDecode, hv1, hv2, hbs]
    · simp only [hexEncode, List.flatMap_cons]
      have e1 : (16 * v1 + v2) / 16 = v1 := by omega
      have e2 : (16 * v1 + v2) % 16 = v2 := by omega
      rw [e1, e2, hd1, hd2]
      show c1 :: c2 :: hexEncode bs = _
      rw [henc]
    · intro b hb
      rcases List.mem_cons.mp hb with h | h
      · omega
      · exact hlt b h

/-- C9: UUID codec round trip: for every 16-byte input, serializing the
result of deserialization yields the original 16 bytes, with
deserialization placing hyphens at string offsets 8, 13, 18, 23; and for
every canonical lowercase textual UUID, deserializing the result of
serialization yields the original string. -/
theorem uuid_codec_roundtrip :
    (∀ bs : List Nat, bs.length = 16 → (∀ b ∈ bs, b < 256) →
      Uuid.serialize (Uuid.deserialize bs) = some bs ∧
      (Uuid.deserialize bs)[8]? = some 45 ∧
      (Uuid.deserialize bs)[13]? = some 45 ∧
      (Uuid.deserialize bs)[18]? = some 45 ∧
      (Uuid.deserialize bs)[23]? = some 45) ∧
    (∀ s : List Nat, canonicalUuid s →
      ∃ bs : List Nat, Uuid.serialize s = some bs ∧ Uuid.deserialize bs = s) := by
  constructor
  · intro bs hlen hbyte
    have hElen : (hexEncode bs).length = 32 := by rw [hexEncode_length, hlen]
    have hl1 : (insertAt 8 45 (hexEncode bs)).length = 33 := by rw [insertAt_length, hElen]
    have hl2 : (insertAt 13 45 (insertAt 8 45 (hexEncode bs))).length = 34 := by
      rw [insertAt_length, hl1]
    have hl3 : (insertAt 18 45 (insertAt 13 45 (insertAt 8 45 (hexEncode bs)))).length = 35 :=
      by rw [insertAt_length, hl2]
    refine ⟨?_, ?_, ?_, ?_, ?_⟩
    · show hexDecode (List.filter _ _) = some bs
      unfold Uuid.deserialize
      rw [filter_insertAt 23 45 _ _ (by simp), filter_insertAt 18 45 _ _ (by simp),
        filter_insertAt 13 45 _ _ (by simp), filter_insertAt 8 45 _ _ (by simp)]
      rw [List.filter_eq_self.mpr fun a ha => by simp [hexEncode_no_hyphen bs a ha]]
      exact hexDecode_hexEncode bs hbyte
    · unfold Uuid.deserialize
      rw [getElem?_insertAt_lt 23 45 8 _ (by omega) (by omega),
        getElem?_insertAt_lt 18 45 8 _ (by omega) (by omega),
        getElem?_insertAt_lt 13 45 8 _ (by omega) (by omega),
        getElem?_insertAt_self 8 45 _ (by omega)]
    · unfold Uuid.deserialize
      rw [getElem?_insertAt_lt 23 45 13 _ (by omega) (by omega),
        getElem?_insertAt_lt 18 45 13 _ (by omega) (by omega),
        getElem?_insertAt_self 13 45 _ (by omega)]
    · unfold Uuid.deserialize
      rw [getElem?_insertAt_lt 23 45 18 _ (by omega) (by omega),
        getElem?_insertAt_self 18 45 _ (by omega)]
    · unfold Uuid.deserialize
      rw [getElem?_insertAt_self 23 45 _ (by omega)]
  · intro s hs
    obtain ⟨g1, g2, g3, g4, g5, h1, h2, h3, h4, h5, hhex, hset⟩ := hs
    have hne : ∀ g : List Nat, (∀ c ∈ g1 ++ g2 ++ g3 ++ g4 ++ g5, isHexLowerDigit c) →
        True := fun _ _ => trivial
    have hmem : ∀ c, c ∈ g1 ∨ c ∈ g2 ∨ c ∈ g3 ∨ c ∈ g4 ∨ c ∈ g5 → isHexLowerDigit c := by
      intro c hc
      apply hhex
      simp only [List.mem_append]
      tauto
    have hfg : ∀ g : List Nat, (∀ c ∈ g, isHexLowerDigit c) →
        g.filter (fun c => c != 45) = g := by
      intro g hg
      apply List.filter_eq_self.mpr
      intro a ha
      have := hg a ha
      have : a ≠ 45 := by rcases this with ⟨x, y⟩ | ⟨x, y⟩ <;> omega
      simp [this]
    have hfilter : s.filter (fun c => c != 45) = g1 ++ (g2 ++ (g3 ++ (g4 ++ g5))) := by
      rw [hset]
      simp only [List.filter_append, List.filter_cons]
      rw [hfg g1 fun c hc => hmem c (by tauto), hfg g2 fun c hc => hmem c (by tauto),
        hfg g3 fun c hc => hmem c (by tauto), hfg g4 fun c hc => hmem c (by tauto),
        hfg g5 fun c hc => hmem c (by tauto)]
      simp
    have hall : ∀ c ∈ g1 ++ (g2 ++ (g3 ++ (g4 ++ g5))), isHexLowerDigit c := by
      intro c hc
      simp only [List.mem_append] at hc
      exact hmem c (by tauto)
    have hlen32 : (g1 ++ (g2 ++ (g3 ++ (g4 ++ g5)))).length % 2 = 0 := by
      simp [h1, h2, h3, h4, h5]
    obtain ⟨bs, hdec, henc, hbyte⟩ :=
      hexDecode_total (g1 ++ (g2 ++ (g3 ++ (g4 ++ g5)))) hall hlen32
    refine ⟨bs, ?_, ?_⟩
    · show hexDecode (s.filter fun c => c != 45) = some bs
      rw [hfilter]
      exact hdec
    · show insertAt 23 45 (insertAt 18 45 (insertAt 13 45 (insertAt 8 45 (hexEncode bs)))) = s
      rw [henc]
      have e1 : insertAt 8 45 (g1 ++ (g2 ++ (g3 ++ (g4 ++ g5)))) =
          g1 ++ 45 :: (g2 ++ (g3 ++ (g4 ++ g5))) := by
        have := insertAt_append g1 (g2 ++ (g3 ++ (g4 ++ g5))) 45
        rwa [h1] at this
      have e2 : insertAt 13 45 (g1 ++ 45 :: (g2 ++ (g3 ++ (g4 ++ g5)))) =
          (g1 ++ 45 :: g2) ++ 45 :: (g3 ++ (g4 ++ g5)) := by
        have hpre : (g1 ++ 45 :: g2).length = 13 := by simp [h1, h2]
        have := insertAt_append (g1 ++ 45 :: g2) (g3 ++ (g4 ++ g5)) 45
        rw [hpre] at this
        rw [← this]
        congr 1
        simp
      have e3 : insertAt 18 45 ((g1 ++ 45 :: g2) ++ 45 :: (g3 ++ (g4 ++ g5))) =
          ((g1 ++ 45 :: g2) ++ 45 :: g3) ++ 45 :: (g4 ++ g5) := by
        have hpre : ((g1 ++ 45 :: g2) ++ 45 :: g3).length = 18 := by simp [h1, h2, h3]
        have := insertAt_append ((g1 ++ 45 :: g2) ++ 45 :: g3) (g4 ++ g5) 45
        rw [hpre] at this
        rw [← this]
        congr 1
        simp
      have e4 : insertAt 23 45 (((g1 ++ 45 :: g2) ++ 45 :: g3) ++ 45 :: (g4 ++ g5)) =
          (((g1 ++ 45 :: g2) ++ 45 :: g3) ++ 45 :: g4) ++ 45 :: g5 := by
        have hpre : (((g1 ++ 45 :: g2) ++ 45 :: g3) ++ 45 :: g4).length = 23 := by
          simp [h1, h2, h3, h4]
        have := insertAt_append (((g1 ++ 45 :: g2) ++ 45 :: g3) ++ 45 :: g4) g5 45
        rw [hpre] at this
        rw [← this]
        congr 1
        simp
      rw [e1, e2, e3, e4, hset]
      simp

/-- Witness for C9 at concrete inputs: a specific 16-byte blob round
trips through the textual form with hyphens at offsets 8, 13, 18, 23,
and a specific canonical lowercase UUID round trips through the byte
form. -/
theorem uuid_codec_roundtrip_witness :
    (Uuid.serialize (Uuid.deserialize [171, 205, 18, 52, 0, 1, 2, 3, 4, 5, 6, 7, 8, 9, 10, 255]) =
      some [171, 205, 18, 52, 0, 1, 2, 3, 4, 5, 6, 7, 8, 9, 10, 255] ∧
      (Uuid.deserialize [171, 205, 18, 52, 0, 1, 2, 3, 4, 5, 6, 7, 8, 9, 10, 255])[8]? = some 45 ∧
      (Uuid.deserialize [171, 205, 18, 52, 0, 1, 2, 3, 4, 5, 6, 7, 8, 9, 10, 255])[13]? = some 45 ∧
      (Uuid.deserialize [171, 205, 18, 52, 0, 1, 2, 3, 4, 5, 6, 7, 8, 9, 10, 255])[18]? = some 45 ∧
      (Uuid.deserialize [171, 205, 18, 52, 0, 1, 2, 3, 4, 5, 6, 7, 8, 9, 10, 255])[23]? = some 45) ∧
    (∃ bs : List Nat,
      Uuid.serialize (strBytes "abcd1234-0001-0203-0405-060708090aff") = some bs ∧
      Uuid.deserialize bs = strBytes "abcd1234-0001-0203-0405-060708090aff") :=
  ⟨uuid_codec_roundtrip.1 [171, 205, 18, 52, 0, 1, 2, 3, 4, 5, 6, 7, 8, 9, 10, 255]
      (by decide) (by decide),
    uuid_codec_roundtrip.2 (strBytes "abcd1234-0001-0203-0405-060708090aff")
      ⟨strBytes "abcd1234", strBytes "0001", strBytes "0203", strBytes "0405",
        strBytes "060708090aff", by decide, by decide, by decide, by decide, by decide,
        by decide, by decide⟩⟩

/-- Folding a push-if-some body over a list appends the filter-mapped
elements. -/
theorem foldl_pushSome (f : Option (List Nat) → Option DtpTopic)
    (l : List (Option (List Nat))) (acc : List DtpTopic) :
    l.foldl (fun a x => dtpPush a (f x)) acc = acc ++ l.filterMap f := by
  induction l generalizing acc with
  | nil => simp
  | cons x xs ih =>
    simp only [List.foldl_cons, List.filterMap_cons]
    cases hf : f x with
    | none => rw [show dtpPush acc none = acc from rfl, ih]
    | some b =>
      rw [show dtpPush acc (some b) = acc ++ [b] from rfl, ih]
      simp

/-- The nested batch/name loops of the DescribeTopicPartitions handler
collect, in order, the entry (if any) of every (batch, requested-name)
pair. -/
theorem dtpMainLoop_eq (batches : List RecordBatch) (names : List (Option (List Nat))) :
    dtpMainLoop batches names =
      batches.flatMap fun b => names.filterMap fun n => dtpEntryFor n b := by
  suffices h : ∀ (bs : List RecordBatch) (acc : List DtpTopic),
      bs.foldl (fun acc batch =>
        names.foldl (fun acc2 n => dtpPush acc2 (dtpEntryFor n batch)) acc) acc =
      acc ++ bs.flatMap (fun b => names.filterMap fun n => dtpEntryFor n b) by
    simpa [dtpMainLoop] using h batches []
  intro bs
  induction bs with
  | nil => simp
  | cons b rest ih =>
    intro acc
    simp only [List.foldl_cons, List.flatMap_cons]
    rw [foldl_pushSome (fun n => dtpEntryFor n b) names acc, ih]
    simp

/-- Membership in the main-loop output. -/
theorem dtpMainLoop_mem (batches : List RecordBatch) (names : List (Option (List Nat)))
    (e : DtpTopic) :
    e ∈ dtpMainLoop batches names ↔
      ∃ b ∈ batches, ∃ n ∈ names, dtpEntryFor n b = some e := by
  rw [dtpMainLoop_eq]
  simp [List.mem_flatMap, List.mem_filterMap]

/-- An entry produced for a requested name carries that name. -/
theorem dtpEntryFor_name (n : Option (List Nat)) (b : RecordBatch) (e : DtpTopic)
    (h : dtpEntryFor n b = some e) : e.name = n := by
  simp only [dtpEntryFor] at h
  split at h
  · exact Option.noConfusion h
  · injection h with h2
    rw [← h2]

/-- Folding the record loop from any state over records containing no
`Topic` record with the requested name appends exactly the partition
entries matching the state's topic id and leaves the id and error code
unchanged. -/
theorem dtpScan_foldl (n : Option (List Nat)) :
    ∀ (l : List RecordValue) (s : DtpScanState),
      (∀ r ∈ l, isTopicNamed n r = false) →
      l.foldl (dtpScanStep n) s =
        ⟨s.partitions ++ l.filterMap (matchingPartitionEntry s.topic_id),
          s.topic_id, s.err⟩ := by
  intro l
  induction l with
  | nil => intro s h; simp
  | cons r rest ih =>
    intro s h
    have hr := h r (by simp)
    have hrest : ∀ x ∈ rest, isTopicNamed n x = false := fun x hx => h x (by simp [hx])
    cases r with
    | topic t =>
      have hne : ¬(t.topic_name = n) := by
        simpa [isTopicNamed] using hr
      simp only [List.foldl_cons, dtpScanStep, if_neg hne]
      rw [ih s hrest]
      simp [matchingPartitionEntry, List.filterMap_cons]
    | partition p =>
      by_cases hp : p.topic_id = s.topic_id
      · simp only [List.foldl_cons, dtpScanStep, if_pos hp]
        rw [ih _ hrest]
        simp [matchingPartitionEntry, List.filterMap_cons, hp]
      · simp only [List.foldl_cons, dtpScanStep, if_neg hp]
        rw [ih s hrest]
        simp [matchingPartitionEntry, List.filterMap_cons, hp]
    | featureLevel nm lv =>
      simp only [List.foldl_cons, dtpScanStep]
      rw [ih s hrest]
      simp [matchingPartitionEntry, List.filterMap_cons]

/-- No partition entry matches when no `Partition` record carries the
given topic id. -/
theorem filterMap_matching_nil (tid : List Nat) (l : List RecordValue)
    (h : ∀ r ∈ l, partitionTopicIdOf r ≠ some tid) :
    l.filterMap (matchingPartitionEntry tid) = [] := by
  rw [List.filterMap_eq_nil_iff]
  intro r hr
  cases r with
  | topic t => rfl
  | featureLevel nm lv => rfl
  | partition p =>
    have := h _ hr
    simp only [partitionTopicIdOf] at this
    have hne : p.topic_id ≠ tid := fun hcontra => this (by rw [hcontra])
    simp [matchingPartitionEntry, hne]

/-- A batch with no `Topic` record named as requested and no `Partition`
record carrying the all-zero UUID contributes no entry for that name. -/
theorem dtpEntryFor_none (n : Option (List Nat)) (b : RecordBatch)
    (hname : ∀ r ∈ b, isTopicNamed n r = false)
    (hzero : ∀ r ∈ b, partitionTopicIdOf r ≠ some zeroUuid) :
    dtpEntryFor n b = none := by
  unfold dtpEntryFor dtpScanBatch
  rw [dtpScan_foldl n b ⟨[], zeroUuid, 3⟩ hname]
  simp [filterMap_matching_nil zeroUuid b hzero]

/-- Scanning a batch consisting of a prefix without the requested name or
zero-id partitions, the matching `Topic` record, and a suffix without the
requested name, yields exactly the suffix's matching partitions with the
topic's id and a cleared error code. -/
theorem dtpScanBatch_key (n : Option (List Nat)) (t : TopicValue)
    (l1 l2 : List RecordValue)
    (ht : t.topic_name = n)
    (hname1 : ∀ r ∈ l1, isTopicNamed n r = false)
    (hname2 : ∀ r ∈ l2, isTopicNamed n r = false)
    (hzero1 : ∀ r ∈ l1, partitionTopicIdOf r ≠ some zeroUuid) :
    dtpScanBatch n (l1 ++ .topic t :: l2) =
      ⟨l2.filterMap (matchingPartitionEntry t.topic_id), t.topic_id, 0⟩ := by
  unfold dtpScanBatch
  rw [List.foldl_append, dtpScan_foldl n l1 ⟨[], zeroUuid, 3⟩ hname1]
  simp only [filterMap_matching_nil zeroUuid l1 hzero1, List.append_nil, List.nil_append,
    List.foldl_cons]
  rw [show dtpScanStep n ⟨[], zeroUuid, 3⟩ (.topic t) = ⟨[], t.topic_id, 0⟩ from by
    simp [dtpScanStep, ht]]
  rw [dtpScan_foldl n l2 ⟨[], t.topic_id, 0⟩ hname2]
  simp

/-- The fallback loop only appends entries. -/
theorem dtpFallback_mem_of_mem (names : List (Option (List Nat))) :
    ∀ (ts : List DtpTopic) (e : DtpTopic), e ∈ ts → e ∈ dtpFallback ts names := by
  induction names with
  | nil => intro ts e he; exact he
  | cons n rest ih =>
    intro ts e he
    simp only [dtpFallback, List.foldl_cons]
    by_cases hany : ts.any fun t => t.name = n
    · rw [if_pos hany]
      exact ih ts e he
    · rw [if_neg hany]
      exact ih (ts ++ [dtpUnknownEntry n]) e (by simp [he])

/-- Every entry of the fallback output is either an original entry or the
unknown-topic entry of some requested name no original entry carried. -/
theorem dtpFallback_mem_cases (names : List (Option (List Nat))) :
    ∀ (ts : List DtpTopic) (e : DtpTopic), e ∈ dtpFallback ts names →
      e ∈ ts ∨ ∃ n ∈ names, e = dtpUnknownEntry n ∧ ∀ e2 ∈ ts, e2.name ≠ n := by
  induction names with
  | nil => intro ts e he; exact Or.inl he
  | cons n rest ih =>
    intro ts e he
    simp only [dtpFallback, List.foldl_cons] at he
    by_cases hany : ts.any fun t => t.name = n
    · rw [if_pos hany] at he
      rcases ih ts e he with h | ⟨n2, hn2, heq, hnone⟩
      · exact Or.inl h
      · exact Or.inr ⟨n2, by simp [hn2], heq, hnone⟩
    · rw [if_neg hany] at he
      rcases ih (ts ++ [dtpUnknownEntry n]) e he with h | ⟨n2, hn2, heq, hnone⟩
      · rcases List.mem_append.mp h with h2 | h2
        · exact Or.inl h2
        · refine Or.inr ⟨n, by simp, by simpa using h2, ?_⟩
          intro e2 he2 hcontra
          exact hany (List.any_eq_true.mpr ⟨e2, he2, by simp [hcontra]⟩)
      · refine Or.inr ⟨n2, by simp [hn2], heq, ?_⟩
        intro e2 he2
        exact hnone e2 (by simp [he2])

/-- A requested name carried by no collected entry gets its unknown-topic
fallback entry appended. -/
theorem dtpFallback_adds_unknown (names : List (Option (List Nat))) :
    ∀ (ts : List DtpTopic) (n : Option (List Nat)), n ∈ names →
      (∀ e ∈ ts, e.name ≠ n) → dtpUnknownEntry n ∈ dtpFallback ts names := by
  induction names with
  | nil => intro ts n hn; simp at hn
  | cons m rest ih =>
    intro ts n hn hnone
    simp only [dtpFallback, List.foldl_cons]
    by_cases hany : ts.any fun t => t.name = m
    · rw [if_pos hany]
      rcases List.mem_cons.mp hn with heq | hmem
      · exfalso
        rcases List.any_eq_true.mp hany with ⟨e2, he2, hp⟩
        have hem : e2.name = m := by simpa using hp
        exact hnone e2 he2 (hem.trans heq.symm)
      · exact ih ts n hmem hnone
    · rw [if_neg hany]
      by_cases hmn : m = n
      · subst hmn
        exact dtpFallback_mem_of_mem rest (ts ++ [dtpUnknownEntry m])
          (dtpUnknownEntry m) (by simp)
      · rcases List.mem_cons.mp hn with heq | hmem
        · exact absurd heq.symm hmn
        · refine ih (ts ++ [dtpUnknownEntry m]) n hmem ?_
          intro e2 he2
          rcases List.mem_append.mp he2 with h2 | h2
          · exact hnone e2 h2
          · have he2m : e2 = dtpUnknownEntry m := by simpa using h2
            rw [he2m]
            simpa [dtpUnknownEntry] using hmn

/-- C6 counterexample: a metadata log whose only record is a `Partition`
record carrying the all-zero topic UUID makes the handler emit, for an
unknown requested name, a single entry with error code 3 and the zero
UUID but a NON-empty partitions array — no entry with empty partitions
exists, contrary to the claim. -/
theorem dtp_unknown_topic_cex :
    dtpHandleRequest [[.partition ⟨0, zeroUuid, [], [], [], [], 1, 1, 1, []⟩]]
        [some (strBytes "foo")] =
      [⟨3, some (strBytes "foo"), zeroUuid, false,
        [⟨0, 0, 1, 1, [], [], [], [], []⟩], 223⟩] ∧
    (⟨3, some (strBytes "foo"), zeroUuid, false,
        [⟨0, 0, 1, 1, [], [], [], [], []⟩], 223⟩ : DtpTopic).partitions ≠ [] := by
  exact ⟨rfl, by decide⟩

/-- C6 (amended): provided no `Partition` record of the metadata log
carries the all-zero topic UUID, for every requested name that equals no
`Topic` record's name the response contains the entry with error_code
UnknownTopicOrPartition (3), the request's name, the all-zero UUID, an
empty partitions array and topic_authorized_operations 0x0DF — and every
response entry carrying that name is this entry. -/
theorem dtp_unknown_topic_entry (batches : List RecordBatch)
    (names : List (Option (List Nat))) (n : Option (List Nat))
    (hmem : n ∈ names)
    (hname : ∀ batch ∈ batches, ∀ r ∈ batch, isTopicNamed n r = false)
    (hzero : ∀ batch ∈ batches, ∀ r ∈ batch, partitionTopicIdOf r ≠ some zeroUuid) :
    (⟨3, n, zeroUuid, false, [], 0x0DF⟩ : DtpTopic) ∈ dtpHandleRequest batches names ∧
    ∀ e ∈ dtpHandleRequest batches names, e.name = n →
      e = ⟨3, n, zeroUuid, false, [], 0x0DF⟩ := by
  have hunk : dtpUnknownEntry n = ⟨3, n, zeroUuid, false, [], 0x0DF⟩ := rfl
  have hnoentry : ∀ e ∈ dtpMainLoop batches names, e.name ≠ n := by
    intro e he hcontra
    obtain ⟨b, hb, n2, hn2, hef⟩ := (dtpMainLoop_mem batches names e).mp he
    have hen : e.name = n2 := dtpEntryFor_name n2 b e hef
    have hn2n : n2 = n := hen.symm.trans hcontra
    subst hn2n
    rw [dtpEntryFor_none n2 b (hname b hb) (hzero b hb)] at hef
    exact Option.noConfusion hef
  constructor
  · rw [← hunk]
    exact dtpFallback_adds_unknown names (dtpMainLoop batches names) n hmem hnoentry
  · intro e he hen
    rcases dtpFallback_mem_cases names (dtpMainLoop batches names) e he with
      hin | ⟨n2, _, heq, _⟩
    · exact absurd hen (hnoentry e hin)
    · rw [heq]
      rw [heq] at hen
      simp only [dtpUnknownEntry] at hen
      rw [hen]
      exact hunk

/-- Witness for the C6 amended theorem at a concrete input: a log with
one unrelated topic and a request for an unknown name. -/
theorem dtp_unknown_topic_entry_witness :
    (⟨3, some (strBytes "foo"), zeroUuid, false, [], 0x0DF⟩ : DtpTopic) ∈
      dtpHandleRequest [[.topic ⟨some (strBytes "bar"), strBytes "u1"⟩]]
        [some (strBytes "foo")] :=
  (dtp_unknown_topic_entry [[.topic ⟨some (strBytes "bar"), strBytes "u1"⟩]]
    [some (strBytes "foo")] (some (strBytes "foo"))
    (by decide) (by decide) (by decide)).1

/-- C2 counterexample: for a known topic with one matching `Partition`
record whose `adding_replicas` is [7], the handler's single response
entry carries eligible_leader_replicas = [7], not the empty array the
claim requires (the `Partition::new` call passes `adding_replicas` in
the eligible-leader-replicas position). -/
theorem dtp_known_topic_elr_cex :
    dtpHandleRequest
        [[.topic ⟨some (strBytes "foo"), strBytes "u1"⟩,
          .partition ⟨0, strBytes "u1", [1, 2], [1], [5], [7], 1, 2, 3, []⟩]]
        [some (strBytes "foo")] =
      [⟨0, some (strBytes "foo"), strBytes "u1", false,
        [⟨0, 0, 1, 2, [1, 2], [1], [7], [], [5]⟩], 223⟩] ∧
    (⟨0, 0, 1, 2, [1, 2], [1], [7], [], [5]⟩ :
        DtpPartition).eligible_leader_replicas ≠ [] := by
  exact ⟨rfl, by decide⟩

/-- C2 (amended): when the requested name matches exactly one `Topic`
record of the metadata log, no `Partition` record carries the all-zero
UUID, and at least one `Partition` record after the `Topic` record in
its batch matches the topic's id, the response contains the entry with
error_code None, that topic_id, and one partition element per matching
`Partition` record following the `Topic` record in the same batch, in
record order — each with error_code None, the partition's index,
leader_id, leader_epoch, replicas, in_sync_replicas, the partition's
adding_replicas as eligible-leader-replicas, empty
last-known-eligible-leader-replicas, and removing_replicas mapped to
offline_replicas — and every response entry carrying the requested name
is this entry. -/
theorem dtp_known_topic_entry (B1 B2 : List RecordBatch) (l1 l2 : List RecordValue)
    (t : TopicValue) (names : List (Option (List Nat))) (n : Option (List Nat))
    (hmem : n ∈ names)
    (ht : t.topic_name = n)
    (huniq : ∀ batch ∈ B1 ++ B2, ∀ r ∈ batch, isTopicNamed n r = false)
    (huniq1 : ∀ r ∈ l1, isTopicNamed n r = false)
    (huniq2 : ∀ r ∈ l2, isTopicNamed n r = false)
    (hzero : ∀ batch ∈ B1 ++ (l1 ++ .topic t :: l2) :: B2, ∀ r ∈ batch,
      partitionTopicIdOf r ≠ some zeroUuid)
    (hsome : l2.filterMap (matchingPartitionEntry t.topic_id) ≠ []) :
    (⟨0, n, t.topic_id, false, l2.filterMap (matchingPartitionEntry t.topic_id),
        0x0DF⟩ : DtpTopic) ∈
      dtpHandleRequest (B1 ++ (l1 ++ .topic t :: l2) :: B2) names ∧
    ∀ e ∈ dtpHandleRequest (B1 ++ (l1 ++ .topic t :: l2) :: B2) names, e.name = n →
      e = ⟨0, n, t.topic_id, false,
        l2.filterMap (matchingPartitionEntry t.topic_id), 0x0DF⟩ := by
  have hkeymem : (l1 ++ .topic t :: l2) ∈ B1 ++ (l1 ++ .topic t :: l2) :: B2 := by
    simp
  have hzero1 : ∀ r ∈ l1, partitionTopicIdOf r ≠ some zeroUuid := by
    intro r hr
    exact hzero _ hkeymem r (by simp [hr])
  have hkey : dtpEntryFor n (l1 ++ .topic t :: l2) =
      some ⟨0, n, t.topic_id, false,
        l2.filterMap (matchingPartitionEntry t.topic_id), 0x0DF⟩ := by
    simp only [dtpEntryFor, dtpScanBatch_key n t l1 l2 ht huniq1 huniq2 hzero1]
    rw [if_neg hsome]
  have hmain : (⟨0, n, t.topic_id, false,
      l2.filterMap (matchingPartitionEntry t.topic_id), 0x0DF⟩ : DtpTopic) ∈
      dtpMainLoop (B1 ++ (l1 ++ .topic t :: l2) :: B2) names :=
    (dtpMainLoop_mem _ _ _).mpr ⟨l1 ++ .topic t :: l2, hkeymem, n, hmem, hkey⟩
  have honly : ∀ e ∈ dtpMainLoop (B1 ++ (l1 ++ .topic t :: l2) :: B2) names,
      e.name = n → e = ⟨0, n, t.topic_id, false,
        l2.filterMap (matchingPartitionEntry t.topic_id), 0x0DF⟩ := by
    intro e he hen
    obtain ⟨b, hb, n2, hn2, hef⟩ := (dtpMainLoop_mem _ _ _).mp he
    have hn2n : n2 = n := (dtpEntryFor_name n2 b e hef).symm.trans hen
    subst hn2n
    have hbcases : b ∈ B1 ++ B2 ∨ b = l1 ++ .topic t :: l2 := by
      rcases List.mem_append.mp hb with h | h
      · exact Or.inl (List.mem_append.mpr (Or.inl h))
      · rcases List.mem_cons.mp h with h2 | h2
        · exact Or.inr h2
        · exact Or.inl (List.mem_append.mpr (Or.inr h2))
    rcases hbcases with hother | hkeyb
    · have hzb : ∀ r ∈ b, partitionTopicIdOf r ≠ some zeroUuid := by
        intro r hr
        refine hzero b ?_ r hr
        rcases List.mem_append.mp hother with h | h
        · simp [h]
        · simp [h]
      rw [dtpEntryFor_none n2 b (huniq b hother) hzb] at hef
      exact Option.noConfusion hef
    · subst hkeyb
      rw [hkey] at hef
      injection hef with h2
      exact h2.symm
  constructor
  · exact dtpFallback_mem_of_mem names _ _ hmain
  · intro e he hen
    rcases dtpFallback_mem_cases names _ e he with hin | ⟨n2, _, heq, hnone⟩
    · exact honly e hin hen
    · exfalso
      have hn2n : n2 = n := by
        rw [heq] at hen
        simpa [dtpUnknownEntry] using hen
      subst hn2n
      exact hnone _ hmain rfl

/-- Witness for the C2 amended theorem at a concrete input: one batch
holding the topic record for "foo" followed by one matching partition
record; the response contains the expected entry. -/
theorem dtp_known_topic_entry_witness :
    (⟨0, some (strBytes "foo"), strBytes "u1", false,
      [⟨0, 0, 1, 2, [1, 2], [1], [7], [], [5]⟩], 0x0DF⟩ : DtpTopic) ∈
      dtpHandleRequest
        [[.topic ⟨some (strBytes "foo"), strBytes "u1"⟩,
          .partition ⟨0, strBytes "u1", [1, 2], [1], [5], [7], 1, 2, 3, []⟩]]
        [some (strBytes "foo")] :=
  (dtp_known_topic_entry [] [] []
    [.partition ⟨0, strBytes "u1", [1, 2], [1], [5], [7], 1, 2, 3, []⟩]
    ⟨some (strBytes "foo"), strBytes "u1"⟩ [some (strBytes "foo")]
    (some (strBytes "foo"))
    (by decide) (by decide) (by decide) (by decide) (by decide) (by decide)
    (by decide)).1
